import Mathlib

namespace Octobrain

/-!
Verification development for the octobrain memory engine.

The Rust sources are shallowly embedded as follows:
* strings are lists of characters (`Str`);
* timestamps are integers counting days (the code compares timestamps via
  `chrono::Duration::num_days`, so day granularity is what every claim uses);
* `f32` values carried by the data model are embedded as rationals, exact
  arithmetic standing in for float arithmetic;
* the transcendental functions `exp`/`ln` of `f32` are embedded twice: the
  ranking pipeline abstracts them as an arbitrary pair of functions in a
  `MathEnv` (no pipeline claim depends on their values), while the analytic
  claims about the decay and recency formulas use `Real.exp`/`Real.log` over ℝ;
* the external collaborators (embedding provider, the columnar table engine's
  approximate vector search) are parameters of a `SearchEnv`.
-/

/-- Strings are modelled as lists of characters. -/
abbrev Str := List Char

/-- Conversion from a Lean string literal to the model's string type. -/
def lit (s : String) : Str := s.toList

/-- The single-quote character, written via its code point. -/
def sq : Char := Char.ofNat 39

/-- Lowercase a string (model of Rust `str::to_lowercase`, ASCII fragment). -/
def toLowerStr (s : Str) : Str := s.map Char.toLower

/-! ## Data model (src/memory/types.rs) -/

/-- The thirteen memory kinds of `enum MemoryType` (types.rs lines 21-48). -/
inductive MemoryType where
  | code
  | architecture
  | bugFix
  | feature
  | documentation
  | userPreference
  | decision
  | learning
  | configuration
  | testing
  | performance
  | security
  | insight
deriving DecidableEq, Repr

/-- Wire string of a memory type, from `impl Display for MemoryType`
(types.rs lines 50-68). -/
def MemoryType.toStr : MemoryType → Str
  | .code => lit (r"code")
  | .architecture => lit (r"architecture")
  | .bugFix => lit (r"bug_fix")
  | .feature => lit (r"feature")
  | .documentation => lit (r"documentation")
  | .userPreference => lit (r"user_preference")
  | .decision => lit (r"decision")
  | .learning => lit (r"learning")
  | .configuration => lit (r"configuration")
  | .testing => lit (r"testing")
  | .performance => lit (r"performance")
  | .security => lit (r"security")
  | .insight => lit (r"insight")

/-- Parsing of a memory type string, from `impl From<String> for MemoryType`
(types.rs lines 70-88): lowercase, match against the alias table, default to
`Insight`. -/
def MemoryType.fromString (s : Str) : MemoryType :=
  let t := toLowerStr s
  if t = lit (r"code") then .code
  else if t = lit (r"architecture") then .architecture
  else if t = lit (r"bug_fix") ∨ t = lit (r"bugfix") ∨ t = lit (r"bug") then .bugFix
  else if t = lit (r"feature") then .feature
  else if t = lit (r"documentation") ∨ t = lit (r"docs") ∨ t = lit (r"doc") then .documentation
  else if t = lit (r"user_preference") ∨ t = lit (r"preference") ∨ t = lit (r"user") then .userPreference
  else if t = lit (r"decision") ∨ t = lit (r"meeting") ∨ t = lit (r"planning") then .decision
  else if t = lit (r"learning") ∨ t = lit (r"tutorial") ∨ t = lit (r"education") then .learning
  else if t = lit (r"configuration") ∨ t = lit (r"config") ∨ t = lit (r"setup") ∨ t = lit (r"deployment") then .configuration
  else if t = lit (r"testing") ∨ t = lit (r"test") ∨ t = lit (r"qa") then .testing
  else if t = lit (r"performance") ∨ t = lit (r"perf") ∨ t = lit (r"optimization") then .performance
  else if t = lit (r"security") ∨ t = lit (r"vulnerability") ∨ t = lit (r"vuln") then .security
  else .insight

/-- Temporal decay record, from `struct MemoryDecay` (types.rs lines 91-101).
Timestamps are day counts; `f32` fields are rationals. -/
structure MemoryDecay where
  base_importance : ℚ
  access_count : ℕ
  last_accessed : ℤ
  decay_rate : ℚ
deriving DecidableEq, Repr

/-- Constructor `MemoryDecay::new` (types.rs lines 105-113): zero accesses,
`last_accessed = now`, decay rate 1. -/
def MemoryDecay.new (base_importance : ℚ) (now : ℤ) : MemoryDecay :=
  { base_importance := base_importance
    access_count := 0
    last_accessed := now
    decay_rate := 1 }

/-- Metadata attached to a memory, from `struct MemoryMetadata`
(types.rs lines 151-169).  The `HashMap<String,String>` of custom fields is
embedded as an association list. -/
structure MemoryMetadata where
  git_commit : Option Str
  related_files : List Str
  tags : List Str
  importance : ℚ
  confidence : ℚ
  created_by : Option Str
  custom_fields : List (Str × Str)
  decay : MemoryDecay
deriving DecidableEq, Repr

/-- Default metadata, from `impl Default for MemoryMetadata`
(types.rs lines 171-184). -/
def MemoryMetadata.default (now : ℤ) : MemoryMetadata :=
  { git_commit := none
    related_files := []
    tags := []
    importance := 1/2
    confidence := 1
    created_by := none
    custom_fields := []
    decay := MemoryDecay.new (1/2) now }

/-- Core memory entity, from `struct Memory` (types.rs lines 187-206). -/
structure Memory where
  id : Str
  memory_type : MemoryType
  title : Str
  content : Str
  metadata : MemoryMetadata
  created_at : ℤ
  updated_at : ℤ
  relevance_score : Option ℚ
deriving DecidableEq, Repr

/-! ## Decay and recency mathematics

Two embeddings of the same source functions: a rational one whose `exp`/`ln`
are abstract (`MathEnv`), used inside the executable search pipeline, and a
real-valued one using `Real.exp`/`Real.log`, used for the analytic claims. -/

/-- Abstract transcendental functions standing in for `f32::exp` and
`f32::ln` inside the executable pipeline. -/
structure MathEnv where
  expQ : ℚ → ℚ
  lnQ : ℚ → ℚ

/-- Pipeline embedding of `MemoryDecay::calculate_current_importance`
(types.rs lines 117-130): `max (base · exp(−rate·days/30) · ln(count+1))
min_threshold`, with `exp`/`ln` taken from the `MathEnv`. -/
def MemoryDecay.calculate_current_importance (env : MathEnv) (d : MemoryDecay)
    (now : ℤ) (min_threshold : ℚ) : ℚ :=
  let days_since_access : ℚ := ((now - d.last_accessed : ℤ) : ℚ)
  let time_decay := env.expQ (-d.decay_rate * days_since_access / 30)
  let access_boost := env.lnQ ((d.access_count : ℚ) + 1)
  let current_importance := d.base_importance * time_decay * access_boost
  max current_importance min_threshold

/-- Pipeline embedding of `Memory::get_current_importance`
(types.rs lines 260-268). -/
def Memory.get_current_importance (env : MathEnv) (m : Memory)
    (decay_enabled : Bool) (now : ℤ) (min_threshold : ℚ) : ℚ :=
  if decay_enabled then
    m.metadata.decay.calculate_current_importance env now min_threshold
  else
    m.metadata.importance

/-- Real-valued decay record mirroring `MemoryDecay` for the analytic claims. -/
structure MemoryDecayReal where
  base_importance : ℝ
  access_count : ℕ
  last_accessed : ℤ
  decay_rate : ℝ

/-- Real-valued embedding of `MemoryDecay::calculate_current_importance`
(types.rs lines 117-130), following the source statement by statement:
`days` is the signed day count now − last_accessed, the time decay is
`exp(−decay_rate · days / 30)`, the access boost is `ln(access_count + 1)`,
and the result is the product floored at `min_threshold`. -/
noncomputable def calculateCurrentImportanceReal (d : MemoryDecayReal)
    (now : ℤ) (min_threshold : ℝ) : ℝ :=
  let days_since_access : ℝ := ((now - d.last_accessed : ℤ) : ℝ)
  let time_decay := Real.exp (-d.decay_rate * days_since_access / 30)
  let access_boost := Real.log ((d.access_count : ℝ) + 1)
  let current_importance := d.base_importance * time_decay * access_boost
  max current_importance min_threshold

/-- Real-valued embedding of `Memory::get_current_importance`
(types.rs lines 260-268); the memory's raw `metadata.importance` field is
passed explicitly. -/
noncomputable def getCurrentImportanceReal (importance : ℝ) (d : MemoryDecayReal)
    (decay_enabled : Bool) (now : ℤ) (min_threshold : ℝ) : ℝ :=
  if decay_enabled then calculateCurrentImportanceReal d now min_threshold
  else importance

/-- Formula of spec section 4.F for the decayed importance, written exactly
as the spec states it: `current = max(min_threshold,
base_importance · exp(−decay_rate · days / 30) · ln(access_count + 1))`. -/
noncomputable def specCurrentImportance (base_importance : ℝ) (decay_rate : ℝ)
    (days : ℤ) (access_count : ℕ) (min_threshold : ℝ) : ℝ :=
  max min_threshold
    (base_importance * Real.exp (-decay_rate * (days : ℝ) / 30) *
      Real.log ((access_count : ℝ) + 1))

/-- Real-valued embedding of `MemoryStore::calculate_recency_score`
(store.rs lines 618-638): day count since creation, future-dated memories
give 1, otherwise `exp(−days / recency_decay_days)`. -/
noncomputable def calculateRecencyScoreReal (created_at : ℤ) (now : ℤ)
    (recency_decay_days : ℕ) : ℝ :=
  let days_old : ℝ := ((now - created_at : ℤ) : ℝ)
  if days_old < 0 then 1
  else Real.exp (-(days_old / (recency_decay_days : ℝ)))

/-- Formula of spec section 4.F for the recency score, written exactly as the
spec states it: `recency = exp(−days / recency_decay_days)` with
`days = max(0, (now − created_at) in days)`. -/
noncomputable def specRecencyScore (created_at : ℤ) (now : ℤ)
    (recency_decay_days : ℕ) : ℝ :=
  Real.exp (-(((max 0 (now - created_at) : ℤ) : ℝ) / (recency_decay_days : ℝ)))

/-! ## Query types (src/memory/types.rs) -/

/-- Sort key options, from `enum MemorySortBy` (types.rs lines 451-454). -/
inductive MemorySortBy where
  | createdAt
  | importance
deriving DecidableEq, Repr

/-- Sort order, from `enum SortOrder` (types.rs lines 459-462). -/
inductive SortOrder where
  | ascending
  | descending
deriving DecidableEq, Repr

/-- Search query, from `struct MemoryQuery` (types.rs lines 315-341). -/
structure MemoryQuery where
  query_text : Option Str
  memory_types : Option (List MemoryType)
  tags : Option (List Str)
  related_files : Option (List Str)
  git_commit : Option Str
  min_importance : Option ℚ
  min_confidence : Option ℚ
  created_after : Option ℤ
  created_before : Option ℤ
  limit : Option ℕ
  min_relevance : Option ℚ
  sort_by : Option MemorySortBy
  sort_order : Option SortOrder
deriving DecidableEq, Repr

/-- Derived `Default` of `MemoryQuery`: every field `None`. -/
def MemoryQuery.default : MemoryQuery :=
  { query_text := none, memory_types := none, tags := none
    related_files := none, git_commit := none, min_importance := none
    min_confidence := none, created_after := none, created_before := none
    limit := none, min_relevance := none, sort_by := none, sort_order := none }

/-- Hybrid search query, from `struct HybridSearchQuery`
(types.rs lines 345-360). -/
structure HybridSearchQuery where
  vector_query : Option Str
  keywords : Option (List Str)
  vector_weight : ℚ
  keyword_weight : ℚ
  recency_weight : ℚ
  importance_weight : ℚ
  filters : MemoryQuery
deriving DecidableEq, Repr

/-- Default hybrid query, from `impl Default for HybridSearchQuery`
(types.rs lines 362-374): weights 0.6 / 0.2 / 0.1 / 0.1. -/
def HybridSearchQuery.default : HybridSearchQuery :=
  { vector_query := none
    keywords := none
    vector_weight := 0.6
    keyword_weight := 0.2
    recency_weight := 0.1
    importance_weight := 0.1
    filters := MemoryQuery.default }

/-- Weight normalization, from `HybridSearchQuery::normalize_weights`
(types.rs lines 378-387): when the weight sum is positive, divide every
weight by it; otherwise leave the weights untouched. -/
def HybridSearchQuery.normalize_weights (q : HybridSearchQuery) : HybridSearchQuery :=
  let sum := q.vector_weight + q.keyword_weight + q.recency_weight + q.importance_weight
  if 0 < sum then
    { q with
      vector_weight := q.vector_weight / sum
      keyword_weight := q.keyword_weight / sum
      recency_weight := q.recency_weight / sum
      importance_weight := q.importance_weight / sum }
  else q

/-- Query validation, from `HybridSearchQuery::validate` (types.rs lines
390-422): every weight must lie in `[0,1]` and at least one of
`vector_query`/`keywords` must be present.  The error-message strings of the
source are elided; only the accept/reject outcome is modelled. -/
def HybridSearchQuery.validate_ok (q : HybridSearchQuery) : Bool :=
  decide (0 ≤ q.vector_weight) && decide (q.vector_weight ≤ 1) &&
  decide (0 ≤ q.keyword_weight) && decide (q.keyword_weight ≤ 1) &&
  decide (0 ≤ q.recency_weight) && decide (q.recency_weight ≤ 1) &&
  decide (0 ≤ q.importance_weight) && decide (q.importance_weight ≤ 1) &&
  (q.vector_query.isSome || q.keywords.isSome)

/-- Hybrid query whose four weights are all zero; input of the C5
counterexample. -/
def zeroWeightQuery : HybridSearchQuery :=
  { HybridSearchQuery.default with
    vector_weight := 0, keyword_weight := 0,
    recency_weight := 0, importance_weight := 0 }

/-! ## Vector index tuner (src/vector_optimizer.rs) -/

/-- Distance metrics of the table engine; only `cosine` is used by the
optimizer. -/
inductive DistanceType where
  | l2
  | cosine
  | dot
deriving DecidableEq, Repr

/-- Index parameter record, from `struct IndexParams`
(vector_optimizer.rs lines 18-24). -/
structure IndexParams where
  should_create_index : Bool
  num_partitions : ℕ
  num_sub_vectors : ℕ
  num_bits : ℕ
  distance_type : DistanceType
deriving DecidableEq, Repr

/-- Rust `u32::clamp(min, max)`: below the range gives `min`, above gives
`max`, otherwise the value itself. -/
def uclamp (x lo hi : ℕ) : ℕ :=
  if x < lo then lo else if hi < x then hi else x

/-- Embedding of `VectorOptimizer::calculate_index_params`
(vector_optimizer.rs lines 31-56).  The source takes the `f64` square root
and truncates to `u32`; on the relevant range (the clamp at 256 absorbs
everything from 66049 rows up, and below that the `f64` square root of an
integer truncates to the integer square root) this is `Nat.sqrt`. -/
def calculate_index_params (row_count vector_dim : ℕ) : IndexParams :=
  if row_count < 1000 then
    { should_create_index := false
      num_partitions := 0
      num_sub_vectors := 0
      num_bits := 0
      distance_type := .cosine }
  else
    { should_create_index := true
      num_partitions := uclamp (Nat.sqrt row_count) 2 256
      num_sub_vectors := uclamp (vector_dim / 8) 1 96
      num_bits := 8
      distance_type := .cosine }

/-! ## Predicate strings and the table engine's filter semantics

The store builds SQL-like predicate strings by direct interpolation
(`format!("id = '{}'", memory_id)`, store.rs lines 205, 227, 328) and hands
them to the external table engine.  The fragment of the engine's predicate
language those strings live in — disjunctions of `field = 'literal'` /
`field != 'literal'` comparisons, with a doubled single quote inside a
literal denoting one quote character — is modelled here by a parser and an
evaluator, following standard SQL quoting semantics. -/

/-- Comparison operators of the predicate fragment used by the store. -/
inductive PredOp where
  | eq
  | ne
deriving DecidableEq, Repr

/-- One comparison `field op 'literal'`. -/
structure PredCond where
  field : Str
  op : PredOp
  value : Str
deriving DecidableEq, Repr

/-- A parsed predicate: a disjunction of comparisons. -/
abbrev Pred := List PredCond

/-- Characters allowed in a column identifier. -/
def isIdentChar (c : Char) : Bool := c.isAlphanum || c = Char.ofNat 95

/-- Drop leading spaces. -/
def skipSpaces (s : Str) : Str := s.dropWhile (fun c => c = Char.ofNat 32)

/-- Parse a column identifier; fails on an empty one. -/
def parseIdent (s : Str) : Option (Str × Str) :=
  let p := s.span isIdentChar
  if p.1 = [] then none else some p

/-- Parse a comparison operator. -/
def parseOp (s : Str) : Option (PredOp × Str) :=
  if (lit (r"!=")).isPrefixOf s then some (.ne, s.drop 2)
  else if (lit (r"=")).isPrefixOf s then some (.eq, s.drop 1)
  else none

/-- Consume a quoted literal after its opening quote: a doubled quote stands
for one quote character, a single quote closes the literal. -/
def parseLitTail : Str → Option (Str × Str)
  | [] => none
  | c :: rest =>
    if c = sq then
      match rest with
      | [] => some ([], [])
      | c2 :: rest2 =>
        if c2 = sq then (parseLitTail rest2).map (fun p => (sq :: p.1, p.2))
        else some ([], rest)
    else (parseLitTail rest).map (fun p => (c :: p.1, p.2))

/-- Parse one comparison `field op 'literal'`. -/
def parseCond (s : Str) : Option (PredCond × Str) :=
  (parseIdent (skipSpaces s)).bind fun p1 =>
  (parseOp (skipSpaces p1.2)).bind fun p2 =>
  match skipSpaces p2.2 with
  | [] => none
  | c :: rest =>
    if c = sq then
      (parseLitTail rest).map fun p3 => (⟨p1.1, p2.1, p3.1⟩, p3.2)
    else none

/-- Parse a disjunction of comparisons, with fuel. -/
def parsePredFuel : ℕ → Str → Option Pred
  | 0, _ => none
  | fuel + 1, s =>
    (parseCond s).bind fun p =>
    let rest := skipSpaces p.2
    if rest = [] then some [p.1]
    else if (lit (r"OR")).isPrefixOf rest then
      (parsePredFuel fuel (rest.drop 2)).map fun cs => p.1 :: cs
    else none

/-- Parse a full predicate string. -/
def parsePredicate (s : Str) : Option Pred := parsePredFuel (s.length + 1) s

/-- Evaluate one comparison against a row's field lookup; an unknown column
is an evaluation error. -/
def evalCond (get : Str → Option Str) (c : PredCond) : Option Bool :=
  (get c.field).map fun v =>
    match c.op with
    | .eq => decide (v = c.value)
    | .ne => decide (v ≠ c.value)

/-- Evaluate a disjunction against a row's field lookup. -/
def evalPred (get : Str → Option Str) : Pred → Option Bool
  | [] => some false
  | c :: rest =>
    (evalCond get c).bind fun b => (evalPred get rest).map fun b2 => b || b2

/-! ## Memory store (src/memory/store.rs) -/

/-- One row of the `memories` table, from the schema built in
`store_memory_with_embedding` (store.rs lines 148-168).  `tags` and
`related_files` are serialized to JSON strings in the table and parsed back
on read; that round trip is lossless for lists of strings, so the model
keeps the lists.  Timestamps are serialized to RFC3339 and parsed back,
also losslessly, so the model keeps the integer day value. -/
structure Row where
  id : Str
  memory_type : Str
  title : Str
  content : Str
  created_at : ℤ
  updated_at : ℤ
  importance : ℚ
  confidence : ℚ
  tags : List Str
  related_files : List Str
  git_commit : Option Str
  embedding : List ℚ
deriving DecidableEq, Repr

/-- Column lookup for predicate evaluation.  Only the `id` column is ever
referenced by the predicates the modelled memory operations build. -/
def Row.fieldValue (row : Row) : Str → Option Str :=
  fun f => if f = lit (r"id") then some row.id else none

/-- The `memories` table. -/
abbrev MemTable := List Row

/-- The predicate string built by the store for an id lookup or delete:
`format!("id = '{}'", memory_id)` with no escaping (store.rs lines 205,
227, 328). -/
def idPredicate (memory_id : Str) : Str :=
  lit (r"id = ") ++ [sq] ++ memory_id ++ [sq]

/-- Rows of a table that do not satisfy a parsed predicate (the table
engine's `delete`); errors if some row cannot be evaluated. -/
def removeMatching : MemTable → Pred → Option MemTable
  | [], _ => some []
  | row :: rest, p =>
    (evalPred row.fieldValue p).bind fun b =>
    (removeMatching rest p).map fun l => if b then l else row :: l

/-- Rows of a table that satisfy a parsed predicate (the table engine's
`query().only_if`); errors if some row cannot be evaluated. -/
def selectMatching : MemTable → Pred → Option MemTable
  | [], _ => some []
  | row :: rest, p =>
    (evalPred row.fieldValue p).bind fun b =>
    (selectMatching rest p).map fun l => if b then row :: l else l

/-- The table engine's `delete` on a raw predicate string. -/
def tableDelete (t : MemTable) (s : Str) : Option MemTable :=
  (parsePredicate s).bind (removeMatching t)

/-- Row written for a memory, from the record batch built in
`store_memory_with_embedding` (store.rs lines 170-199). -/
def memoryToRow (m : Memory) (embedding : List ℚ) : Row :=
  { id := m.id
    memory_type := m.memory_type.toStr
    title := m.title
    content := m.content
    created_at := m.created_at
    updated_at := m.updated_at
    importance := m.metadata.importance
    confidence := m.metadata.confidence
    tags := m.metadata.tags
    related_files := m.metadata.related_files
    git_commit := m.metadata.git_commit
    embedding := embedding }

/-- Embedding of `store_memory_with_embedding` (store.rs lines 142-216):
delete any prior row with the same id — the `.ok()` in the source ignores a
failed delete — then append the new row. -/
def store_memory_with_embedding (t : MemTable) (m : Memory)
    (embedding : List ℚ) : MemTable :=
  ((tableDelete t (idPredicate m.id)).getD t) ++ [memoryToRow m embedding]

/-- Embedding of `batch_to_memories` for one row (store.rs lines 898-1008):
every column is copied back, but the metadata is completed with
`..Default::default()` (store.rs line 988), so `created_by`,
`custom_fields` and the `decay` record take their default values —
`MemoryDecay::new(0.5)` stamps the read time `now` as `last_accessed`. -/
def rowToMemory (now : ℤ) (row : Row) : Memory :=
  { id := row.id
    memory_type := MemoryType.fromString row.memory_type
    title := row.title
    content := row.content
    metadata :=
      { MemoryMetadata.default now with
        git_commit := row.git_commit
        importance := row.importance
        confidence := row.confidence
        tags := row.tags
        related_files := row.related_files }
    created_at := row.created_at
    updated_at := row.updated_at
    relevance_score := none }

/-- Embedding of `get_memory` (store.rs lines 323-341): filter by the raw
interpolated id predicate, take the first row, convert it back.  `none`
models a query error (unparsable predicate). -/
def get_memory (t : MemTable) (now : ℤ) (memory_id : Str) :
    Option (Option Memory) :=
  (parsePredicate (idPredicate memory_id)).bind fun p =>
  (selectMatching t p).map fun rows => rows.head?.map (rowToMemory now)

/-! ## Search pipeline (src/memory/store.rs)

The external collaborators of the pipeline — the embedding provider and the
table engine's approximate vector search, plus the configuration values the
store reads — are collected in a `SearchEnv`. -/

/-- Environment of the search pipeline: abstract transcendentals, the read
clock, the external embedding provider, the table engine's approximate
nearest-neighbour search (query vector and requested limit to rows with
their `_distance` column), the full table scan, and the configuration
fields the store consults. -/
structure SearchEnv where
  math : MathEnv
  now : ℤ
  embed : Str → List ℚ
  ann : List ℚ → ℕ → List (Row × ℚ)
  allRows : MemTable
  maxSearchResults : ℕ
  decayEnabled : Bool
  minImportanceThreshold : ℚ
  recencyDecayDays : ℕ

/-- Search result, from `struct MemorySearchResult` (types.rs lines
466-473); the `selection_reason` debug string is not modelled. -/
structure MemorySearchResult where
  memory : Memory
  relevance_score : ℚ
deriving DecidableEq, Repr

/-- Filter conjunction, from `matches_filters` (store.rs lines 1083-1143). -/
def matches_filters (m : Memory) (q : MemoryQuery) : Bool :=
  (match q.memory_types with
    | some ts => ts.contains m.memory_type
    | none => true)
  && (match q.tags with
    | some ts => ts.any (fun tag => m.metadata.tags.contains tag)
    | none => true)
  && (match q.related_files with
    | some fs => fs.any (fun f => m.metadata.related_files.contains f)
    | none => true)
  && (match q.git_commit with
    | some g => m.metadata.git_commit = some g
    | none => true)
  && (match q.min_importance with
    | some mi => decide (mi ≤ m.metadata.importance)
    | none => true)
  && (match q.min_confidence with
    | some mc => decide (mc ≤ m.metadata.confidence)
    | none => true)
  && (match q.created_after with
    | some ca => decide (ca ≤ m.created_at)
    | none => true)
  && (match q.created_before with
    | some cb => decide (m.created_at ≤ cb)
    | none => true)

/-- Tokenizer, from `tokenize` (store.rs lines 516-522): lowercase, split
on every character that is neither alphanumeric nor underscore, drop empty
pieces.  The splitting character class coincides with `isIdentChar`. -/
def tokenize (text : Str) : List Str :=
  ((toLowerStr text).splitOnP (fun c => !(isIdentChar c))).filter (· ≠ [])

/-- Term frequency, from `calculate_tf` (store.rs lines 525-534). -/
def calculate_tf (keyword text : Str) : ℚ :=
  let tokens := tokenize text
  if tokens = [] then 0
  else
    let keyword_lower := toLowerStr keyword
    let count := (tokens.filter (· = keyword_lower)).length
    (count : ℚ) / (tokens.length : ℚ)

/-- Field scoring, from `score_field` (store.rs lines 537-549). -/
def score_field (keywords : List Str) (text : Str) (field_weight : ℚ) : ℚ :=
  if keywords = [] ∨ text = [] then 0
  else keywords.foldl (fun acc kw => acc + calculate_tf kw text * field_weight) 0

/-- Keyword search, from `keyword_search` (store.rs lines 553-613): score
every filtered memory over title (weight 3), content (weight 1) and the
space-joined tags (weight 2), keep positive scores, max-normalize, sort
descending. -/
def keyword_search (env : SearchEnv) (keywords : List Str)
    (filters : MemoryQuery) : List (Memory × ℚ) :=
  if keywords = [] then []
  else
    let scored := (env.allRows.map (rowToMemory env.now)).filterMap fun mem =>
      if matches_filters mem filters then
        let title_score := score_field keywords mem.title 3
        let content_score := score_field keywords mem.content 1
        let tags_score :=
          score_field keywords (List.intercalate (lit (r" ")) mem.metadata.tags) 2
        let total_score := title_score + content_score + tags_score
        if 0 < total_score then some (mem, total_score) else none
      else none
    let normalized :=
      if scored = [] then scored
      else
        let max_score := scored.foldl (fun acc p => max acc p.2) 0
        if 0 < max_score then scored.map (fun p => (p.1, p.2 / max_score))
        else scored
    normalized.mergeSort (fun a b => decide (b.2 ≤ a.2))

/-- Recency score over the pipeline's rationals, from
`calculate_recency_score` (store.rs lines 618-638), with `exp` taken from
the `MathEnv`. -/
def calculate_recency_score_q (env : SearchEnv) (m : Memory) : ℚ :=
  let days_old : ℚ := ((env.now - m.created_at : ℤ) : ℚ)
  if days_old < 0 then 1
  else env.math.expQ (-(days_old / (env.recencyDecayDays : ℚ)))

/-- Current importance of a memory under the pipeline's configuration. -/
def currentImportanceOf (env : SearchEnv) (m : Memory) : ℚ :=
  m.get_current_importance env.math env.decayEnabled env.now
    env.minImportanceThreshold

/-- Sorting of `vector_search` results (store.rs lines 465-505): explicit
`sort_by`/`sort_order` on raw creation time or on current importance,
otherwise relevance descending.  `Vec::sort_by` is stable; `mergeSort` is
its stable counterpart. -/
def sort_results (env : SearchEnv) (q : MemoryQuery)
    (results : List MemorySearchResult) : List MemorySearchResult :=
  match q.sort_by with
  | some sb =>
    let ord := q.sort_order.getD SortOrder.descending
    let le : MemorySearchResult → MemorySearchResult → Bool := fun a b =>
      match sb, ord with
      | .createdAt, .ascending => decide (a.memory.created_at ≤ b.memory.created_at)
      | .createdAt, .descending => decide (b.memory.created_at ≤ a.memory.created_at)
      | .importance, .ascending =>
        decide (currentImportanceOf env a.memory ≤ currentImportanceOf env b.memory)
      | .importance, .descending =>
        decide (currentImportanceOf env b.memory ≤ currentImportanceOf env a.memory)
    results.mergeSort le
  | none =>
    results.mergeSort (fun a b => decide (b.relevance_score ≤ a.relevance_score))

/-- Vector search, from `vector_search` (store.rs lines 358-511): embed the
query text if present and ask the engine for `2·limit` nearest rows, filter,
score by `(1 − distance) · current_importance`, keep scores at or above
`min_relevance`; without query text scan all rows and use the current
importance as the score; sort and truncate to `limit`. -/
def vector_search (env : SearchEnv) (q : MemoryQuery) : List MemorySearchResult :=
  let limit := min (q.limit.getD env.maxSearchResults) env.maxSearchResults
  let min_relevance := q.min_relevance.getD 0
  let results :=
    match q.query_text with
    | some text =>
      let query_embedding := env.embed text
      (env.ann query_embedding (limit * 2)).filterMap fun rd =>
        let mem := rowToMemory env.now rd.1
        if matches_filters mem q then
          let vector_similarity := 1 - rd.2
          let current_importance := currentImportanceOf env mem
          let final_score := vector_similarity * current_importance
          if min_relevance ≤ final_score then
            some ⟨mem, final_score⟩
          else none
        else none
    | none =>
      (env.allRows.map (rowToMemory env.now)).filterMap fun mem =>
        if matches_filters mem q then
          let relevance_score := currentImportanceOf env mem
          if min_relevance ≤ relevance_score then
            some ⟨mem, relevance_score⟩
          else none
        else none
  (sort_results env q results).take limit

/-- Candidate entry of the hybrid pipeline: the memory and its four signal
scores (store.rs line 674). -/
structure Candidate where
  mem : Memory
  vec_score : ℚ
  kw_score : ℚ
  rec_score : ℚ
  imp_score : ℚ
deriving DecidableEq, Repr

/-- The hash map's `insert`: replace the entry in place or append it. -/
def insertCandidate : List (Str × Candidate) → Str → Candidate
    → List (Str × Candidate)
  | [], k, v => [(k, v)]
  | (k0, v0) :: rest, k, v =>
    if k0 = k then (k0, v) :: rest else (k0, v0) :: insertCandidate rest k v

/-- The hash map's `entry().and_modify(set kw).or_insert(...)` used by the
keyword fold (store.rs lines 700-707). -/
def adjustKw : List (Str × Candidate) → Str → Memory → ℚ
    → List (Str × Candidate)
  | [], k, mem, kw => [(k, ⟨mem, 0, kw, 0, 0⟩)]
  | (k0, v0) :: rest, k, mem, kw =>
    if k0 = k then (k0, { v0 with kw_score := kw }) :: rest
    else (k0, v0) :: adjustKw rest k mem kw

/-- The final limit of a hybrid query: its `filters.limit`, defaulting to
`max_search_results` (store.rs lines 667-670). -/
def hybridFinalLimit (env : SearchEnv) (q : HybridSearchQuery) : ℕ :=
  q.filters.limit.getD env.maxSearchResults

/-- Vector half of the hybrid candidate construction (store.rs lines
677-694): when a vector query is present, run `vector_search` with the
query text and `limit * 2`, and fold the results into the candidate map.
The hash map is modelled as an association list in insertion order; every
property claimed of the pipeline is insensitive to the map's iteration
order. -/
def hybrid_c1 (env : SearchEnv) (q : HybridSearchQuery) :
    List (Str × Candidate) :=
  match q.vector_query with
  | some vq =>
    (vector_search env
        { q.filters with query_text := some vq
                         limit := some (hybridFinalLimit env q * 2) }).foldl
      (fun acc res =>
        insertCandidate acc res.memory.id ⟨res.memory, res.relevance_score, 0, 0, 0⟩)
      []
  | none => []

/-- Keyword half of the hybrid candidate construction (store.rs lines
696-707): fold the keyword results into the map, updating the keyword
score of entries already present. -/
def hybrid_c2 (env : SearchEnv) (q : HybridSearchQuery) :
    List (Str × Candidate) :=
  match q.keywords with
  | some kws =>
    (keyword_search env kws q.filters).foldl
      (fun acc p => adjustKw acc p.1.id p.1 p.2) (hybrid_c1 env q)
  | none => hybrid_c1 env q

/-- Fallback candidate set (store.rs lines 709-727): the full filtered
table, for recency/importance-only queries. -/
def hybrid_fallback (env : SearchEnv) (q : HybridSearchQuery) :
    List (Str × Candidate) :=
  ((env.allRows.map (rowToMemory env.now)).filter
      (fun mem => matches_filters mem q.filters)).foldl
    (fun acc mem => insertCandidate acc mem.id ⟨mem, 0, 0, 0, 0⟩) []

/-- Candidate construction of `hybrid_search`, step 1 (store.rs lines
673-727): vector fold, then keyword fold, then the fallback if the map is
still empty. -/
def hybrid_candidates (env : SearchEnv) (q : HybridSearchQuery) :
    List (Str × Candidate) :=
  if hybrid_c2 env q = [] then hybrid_fallback env q else hybrid_c2 env q

/-- The vector-search query the spec says `hybrid_search` issues: the
hybrid query's filters with the vector text as `query_text` and
`limit = 2 · final_limit`. -/
def specHybridVectorQuery (env : SearchEnv) (q : HybridSearchQuery)
    (vq : Str) : MemoryQuery :=
  { q.filters with
    query_text := some vq
    limit := some (2 * hybridFinalLimit env q) }

/-- Step 2 of `hybrid_search` (store.rs lines 729-739): fill in the recency
and current-importance signals of every candidate. -/
def hybrid_scored (env : SearchEnv) (q : HybridSearchQuery) :
    List (Str × Candidate) :=
  (hybrid_candidates env q).map fun p =>
    (p.1, { p.2 with
      rec_score := calculate_recency_score_q env p.2.mem
      imp_score := currentImportanceOf env p.2.mem })

/-- The weighted combination of step 3 (store.rs lines 746-749). -/
def combineScores (q : HybridSearchQuery) (c : Candidate) : ℚ :=
  q.vector_weight * c.vec_score + q.keyword_weight * c.kw_score
    + q.recency_weight * c.rec_score + q.importance_weight * c.imp_score

/-- Hybrid search, from `hybrid_search` (store.rs lines 658-777): validate,
build and score candidates, combine the four signals linearly, drop scores
below `min_relevance`, sort by the combined score descending, truncate to
the final limit.  `none` models the validation error. -/
def hybrid_search (env : SearchEnv) (q : HybridSearchQuery) :
    Option (List MemorySearchResult) :=
  if q.validate_ok then
    some ((((((hybrid_scored env q).map fun p =>
        ({ memory := p.2.mem, relevance_score := combineScores q p.2 }
          : MemorySearchResult)).filter
        fun r => decide (q.filters.min_relevance.getD 0 ≤ r.relevance_score)).mergeSort
        (fun a b => decide (b.relevance_score ≤ a.relevance_score))).take
        (hybridFinalLimit env q)))
  else none

/-- Memory with a non-default `created_by`; input of the C1 counterexample. -/
def roundTripCounterMemory : Memory :=
  { id := lit (r"m1")
    memory_type := .code
    title := lit (r"t")
    content := lit (r"c")
    metadata :=
      { git_commit := none
        related_files := []
        tags := []
        importance := 1/2
        confidence := 1
        created_by := some (lit (r"alice"))
        custom_fields := []
        decay := MemoryDecay.new (1/2) 0 }
    created_at := 0
    updated_at := 0
    relevance_score := none }

/-- Memory with non-default metadata in every optional field; input of the
C1 witness. -/
def witnessMemory : Memory :=
  { id := lit (r"mem1")
    memory_type := .bugFix
    title := lit (r"fix race")
    content := lit (r"details")
    metadata :=
      { git_commit := some (lit (r"abc123"))
        related_files := [lit (r"a.rs")]
        tags := [lit (r"rust")]
        importance := 9/10
        confidence := 4/5
        created_by := some (lit (r"bob"))
        custom_fields := [(lit (r"k"), lit (r"v"))]
        decay := { base_importance := 9/10, access_count := 3
                   last_accessed := 2, decay_rate := 2 } }
    created_at := 1
    updated_at := 2
    relevance_score := none }

/-- A memory id containing a single quote, spelling the string
`x' OR id != 'x`; interpolated unescaped it rewrites the predicate into a
disjunction that matches every row. -/
def injectionId : Str := lit (r"x") ++ [sq] ++ lit (r" OR id != ") ++ [sq] ++ lit (r"x")

/-- A stored row whose id `y` differs from `injectionId`. -/
def otherRow : Row :=
  { id := lit (r"y"), memory_type := lit (r"code"), title := [], content := []
    created_at := 0, updated_at := 0, importance := 0, confidence := 0
    tags := [], related_files := [], git_commit := none, embedding := [] }

/-- Modelled from the spec: the quoting the spec's safety section demands —
"all filter values injected into the query predicate string must be quoted
by doubling single quotes" — which no function of the source performs. -/
def escapeSq (s : Str) : Str := s.flatMap fun c => if c = sq then [sq, sq] else [c]

/-- Search environment over an empty table with trivial external
collaborators; input of the C3 witness. -/
def trivialSearchEnv : SearchEnv :=
  { math := ⟨fun _ => 1, fun _ => 1⟩
    now := 0
    embed := fun _ => []
    ann := fun _ _ => []
    allRows := []
    maxSearchResults := 5
    decayEnabled := true
    minImportanceThreshold := 0
    recencyDecayDays := 30 }

/-- Default hybrid query carrying only a vector text; input of the C3
witness. -/
def vectorOnlyQuery : HybridSearchQuery :=
  { HybridSearchQuery.default with vector_query := some (lit (r"arc")) }

/-! ## Storage layout (src/storage.rs) -/

/-- Whitespace test of `str::trim` (ASCII fragment). -/
def isWs (c : Char) : Bool :=
  c = Char.ofNat 32 || c = Char.ofNat 9 || c = Char.ofNat 10 || c = Char.ofNat 13

/-- Rust `str::trim`: drop whitespace from both ends. -/
def trimStr (s : Str) : Str :=
  ((s.dropWhile isWs).reverse.dropWhile isWs).reverse

/-- Rust `str::strip_suffix` folded with the `if let`: remove one copy of
the suffix when present, otherwise keep the string. -/
def stripSuffix (s suf : Str) : Str :=
  if suf.isSuffixOf s then s.take (s.length - suf.length) else s

/-- Rust `str::find(char)`: index of the first character satisfying the
test. -/
def findCharIdx (p : Char → Bool) : Str → Option ℕ
  | [] => none
  | c :: rest => if p c then some 0 else (findCharIdx p rest).map (· + 1)

/-- Rust `str::find(&str)`: index of the first occurrence of a pattern. -/
def findSubIdx (pat : Str) : Str → Option ℕ
  | [] => if pat = [] then some 0 else none
  | c :: rest =>
    if pat.isPrefixOf (c :: rest) then some 0
    else (findSubIdx pat rest).map (· + 1)

/-- Rust `str::contains(&str)`. -/
def containsSub (pat s : Str) : Bool := (findSubIdx pat s).isSome

/-- The trailing half of `normalize_git_url` (storage.rs lines 131-139):
for `http://`/`https://` URLs drop everything through the first `://`,
otherwise return the string unchanged. -/
def schemeBranch (url : Str) : Str :=
  if (lit (r"http://")).isPrefixOf url || (lit (r"https://")).isPrefixOf url then
    match findSubIdx (lit (r"://")) url with
    | some scheme_end => url.drop (scheme_end + 3)
    | none => url
  else url

/-- Embedding of `normalize_git_url` (storage.rs lines 110-140): trim,
strip one trailing `.git`, convert the SSH form `user@host:path` (an `@`
and a `:` but no `://`) to `host/path`, and strip the scheme of
`http://`/`https://` URLs. -/
def normalize_git_url (url0 : Str) : Str :=
  let url1 := trimStr url0
  let url := stripSuffix url1 (lit (r".git"))
  if url.contains (Char.ofNat 64) && url.contains (Char.ofNat 58)
      && !(containsSub (lit (r"://")) url) then
    match findCharIdx (fun c => c = Char.ofNat 64) url with
    | some at_pos =>
      match findCharIdx (fun c => c = Char.ofNat 58) (url.drop at_pos) with
      | some colon_pos =>
        ((url.drop (at_pos + 1)).take (colon_pos - 1))
          ++ Char.ofNat 47 :: url.drop (at_pos + colon_pos + 1)
      | none => schemeBranch url
    | none => schemeBranch url
  else schemeBranch url

/-- One lowercase hex digit of Rust's `{:x}` formatting. -/
def hexDigit (n : ℕ) : Char :=
  if n < 10 then Char.ofNat (48 + n) else Char.ofNat (87 + n)

/-- The `{:x}` rendering of a digest given as its byte sequence: two
lowercase hex digits per byte. -/
def formatHexDigest (digest : List ℕ) : Str :=
  digest.flatMap fun b => [hexDigit (b / 16 % 16), hexDigit (b % 16)]

/-- Embedding of the Git-remote path of `get_project_identifier`
(storage.rs lines 60-68 and 87-105): normalize the origin URL, hash it,
render the digest in lowercase hex and keep the first 16 characters.  The
SHA-256 function of the external `sha2` crate is a parameter mapping a
string to its 32-byte digest. -/
def get_project_identifier (sha : Str → List ℕ) (url : Str) : Str :=
  (formatHexDigest (sha (normalize_git_url url))).take 16

/-- Written from the claim: normalization that strips the `scheme://`
prefix for EVERY scheme, compared against the source's normalization. -/
def specStripAnyScheme (url : Str) : Str :=
  match findSubIdx (lit (r"://")) url with
  | some i => url.drop (i + 3)
  | none => url

/-! ## Theorems -/

/-- C4: with decay enabled the current importance is exactly the spec formula
`max(min_threshold, base_importance · exp(−decay_rate · days / 30) ·
ln(access_count + 1))` for `days = now − last_accessed`; it is always at least
`min_threshold`; and with decay disabled `get_current_importance` returns the
raw `metadata.importance` unchanged. -/
theorem decay_formula_matches_spec (d : MemoryDecayReal) (now : ℤ)
    (min_threshold : ℝ) (importance : ℝ) :
    calculateCurrentImportanceReal d now min_threshold
        = specCurrentImportance d.base_importance d.decay_rate
            (now - d.last_accessed) d.access_count min_threshold
      ∧ min_threshold ≤ calculateCurrentImportanceReal d now min_threshold
      ∧ getCurrentImportanceReal importance d true now min_threshold
        = calculateCurrentImportanceReal d now min_threshold
      ∧ getCurrentImportanceReal importance d false now min_threshold
        = importance := by
  refine ⟨?_, ?_, rfl, rfl⟩
  · simp only [calculateCurrentImportanceReal, specCurrentImportance]
    exact max_comm _ _
  · simp only [calculateCurrentImportanceReal]
    exact le_max_right _ _

/-- C10: a freshly constructed `MemoryDecay` has `access_count = 0`, and for
any decay record with zero accesses the decayed importance is exactly the
floor `min_threshold`, whatever the base importance, decay rate and elapsed
time, because `ln(0 + 1) = 0` annihilates the product. -/
theorem decay_zero_access_gives_floor (b : ℚ) (t : ℤ)
    (base rate : ℝ) (last_accessed now : ℤ) (min_threshold : ℝ)
    (hmin : 0 ≤ min_threshold) :
    (MemoryDecay.new b t).access_count = 0
      ∧ calculateCurrentImportanceReal
          ⟨base, 0, last_accessed, rate⟩ now min_threshold = min_threshold := by
  refine ⟨rfl, ?_⟩
  simp only [calculateCurrentImportanceReal]
  norm_num [Real.log_one, max_eq_right hmin]

/-- Witness for `decay_zero_access_gives_floor` at concrete inputs. -/
theorem decay_zero_access_gives_floor_witness :
    (MemoryDecay.new (1/2) 0).access_count = 0
      ∧ calculateCurrentImportanceReal ⟨1, 0, 0, 2⟩ 45 0 = 0 :=
  decay_zero_access_gives_floor (1/2) 0 1 2 0 45 0 (le_refl 0)

/-- C8: with a non-negative base importance (the data model clamps it to
`[0,1]`) and a positive decay rate, the decayed importance is non-increasing
as the day count since last access grows, and non-decreasing as the access
count grows. -/
theorem decay_monotonicity (base rate : ℝ) (access_count : ℕ)
    (last_accessed : ℤ) (min_threshold : ℝ) (n1 n2 : ℤ) (a1 a2 : ℕ)
    (hbase : 0 ≤ base) (hrate : 0 < rate) :
    (n1 ≤ n2 →
      calculateCurrentImportanceReal ⟨base, access_count, last_accessed, rate⟩
          n2 min_threshold
        ≤ calculateCurrentImportanceReal ⟨base, access_count, last_accessed, rate⟩
          n1 min_threshold)
    ∧ (a1 ≤ a2 →
      calculateCurrentImportanceReal ⟨base, a1, last_accessed, rate⟩
          n1 min_threshold
        ≤ calculateCurrentImportanceReal ⟨base, a2, last_accessed, rate⟩
          n1 min_threshold) := by
  constructor
  · intro h
    simp only [calculateCurrentImportanceReal]
    apply max_le_max _ (le_refl min_threshold)
    have hd : ((n1 - last_accessed : ℤ) : ℝ) ≤ ((n2 - last_accessed : ℤ) : ℝ) := by
      exact_mod_cast sub_le_sub_right h last_accessed
    have hexp : Real.exp (-rate * ((n2 - last_accessed : ℤ) : ℝ) / 30)
        ≤ Real.exp (-rate * ((n1 - last_accessed : ℤ) : ℝ) / 30) := by
      apply Real.exp_le_exp.2
      nlinarith
    have hlog : 0 ≤ Real.log ((access_count : ℝ) + 1) := by
      apply Real.log_nonneg
      have := Nat.cast_nonneg (α := ℝ) access_count
      linarith
    exact mul_le_mul_of_nonneg_right
      (mul_le_mul_of_nonneg_left hexp hbase) hlog
  · intro h
    simp only [calculateCurrentImportanceReal]
    apply max_le_max _ (le_refl min_threshold)
    have hlog : Real.log ((a1 : ℝ) + 1) ≤ Real.log ((a2 : ℝ) + 1) := by
      apply Real.log_le_log
      · have := Nat.cast_nonneg (α := ℝ) a1
        linarith
      · have : (a1 : ℝ) ≤ (a2 : ℝ) := by exact_mod_cast h
        linarith
    have hbe : 0 ≤ base * Real.exp (-rate * ((n1 - last_accessed : ℤ) : ℝ) / 30) :=
      mul_nonneg hbase (Real.exp_pos _).le
    exact mul_le_mul_of_nonneg_left hlog hbe

/-- Witness for `decay_monotonicity` at concrete inputs. -/
theorem decay_monotonicity_witness :
    (calculateCurrentImportanceReal ⟨1, 2, 0, 1⟩ 7 0
        ≤ calculateCurrentImportanceReal ⟨1, 2, 0, 1⟩ 0 0)
    ∧ (calculateCurrentImportanceReal ⟨1, 0, 0, 1⟩ 0 0
        ≤ calculateCurrentImportanceReal ⟨1, 5, 0, 1⟩ 0 0) :=
  ⟨(decay_monotonicity 1 1 2 0 0 0 7 0 5 zero_le_one zero_lt_one).1 (by decide),
   (decay_monotonicity 1 1 2 0 0 0 7 0 5 zero_le_one zero_lt_one).2 (by decide)⟩

/-- C9: for a positive recency decay period the recency score is exactly
`exp(−max(0, days)/recency_decay_days)`, future-dated memories score 1, the
score lies in `[0, 1]`, it lies in `[0.36, 0.38]` when the age equals the
decay period, and in `[0.13, 0.14]` when the age is twice the decay period. -/
theorem recency_score_spec (created_at now : ℤ) (recency_decay_days : ℕ)
    (hrdd : 0 < recency_decay_days) :
    calculateRecencyScoreReal created_at now recency_decay_days
        = specRecencyScore created_at now recency_decay_days
      ∧ (now < created_at →
          calculateRecencyScoreReal created_at now recency_decay_days = 1)
      ∧ 0 ≤ calculateRecencyScoreReal created_at now recency_decay_days
      ∧ calculateRecencyScoreReal created_at now recency_decay_days ≤ 1
      ∧ (now - created_at = recency_decay_days →
          9/25 ≤ calculateRecencyScoreReal created_at now recency_decay_days
          ∧ calculateRecencyScoreReal created_at now recency_decay_days ≤ 19/50)
      ∧ (now - created_at = 2 * recency_decay_days →
          13/100 ≤ calculateRecencyScoreReal created_at now recency_decay_days
          ∧ calculateRecencyScoreReal created_at now recency_decay_days ≤ 7/50) := by
  have hr0 : (0 : ℝ) < (recency_decay_days : ℝ) := by exact_mod_cast hrdd
  refine ⟨?_, ?_, ?_, ?_, ?_, ?_⟩
  · simp only [calculateRecencyScoreReal, specRecencyScore]
    by_cases h : ((now - created_at : ℤ) : ℝ) < 0
    · have hz : now - created_at < 0 := by exact_mod_cast h
      rw [if_pos h, max_eq_left hz.le]
      norm_num
    · have hz : 0 ≤ now - created_at := by
        have : (0 : ℝ) ≤ ((now - created_at : ℤ) : ℝ) := not_lt.1 h
        exact_mod_cast this
      rw [if_neg h, max_eq_right hz]
  · intro h
    have hneg : ((now - created_at : ℤ) : ℝ) < 0 := by
      exact_mod_cast sub_neg.2 h
    simp only [calculateRecencyScoreReal]
    rw [if_pos hneg]
  · simp only [calculateRecencyScoreReal]
    by_cases h : ((now - created_at : ℤ) : ℝ) < 0
    · rw [if_pos h]; norm_num
    · rw [if_neg h]; exact (Real.exp_pos _).le
  · simp only [calculateRecencyScoreReal]
    by_cases h : ((now - created_at : ℤ) : ℝ) < 0
    · rw [if_pos h]
    · rw [if_neg h]
      apply Real.exp_le_one_iff.2
      have := not_lt.1 h
      have hdiv : 0 ≤ ((now - created_at : ℤ) : ℝ) / (recency_decay_days : ℝ) :=
        div_nonneg this hr0.le
      linarith
  · intro h
    have hcast : ((now - created_at : ℤ) : ℝ) = (recency_decay_days : ℝ) := by
      exact_mod_cast h
    have hnotneg : ¬ ((now - created_at : ℤ) : ℝ) < 0 := by
      rw [hcast]; exact not_lt.2 hr0.le
    simp only [calculateRecencyScoreReal]
    rw [if_neg hnotneg, hcast, div_self hr0.ne']
    have h1 := Real.exp_one_gt_d9
    have h2 := Real.exp_one_lt_d9
    have hp : 0 < Real.exp 1 := Real.exp_pos 1
    have hinv : Real.exp 1 * (Real.exp 1)⁻¹ = 1 := mul_inv_cancel₀ hp.ne'
    have hip : 0 < (Real.exp 1)⁻¹ := inv_pos.2 hp
    rw [Real.exp_neg]
    constructor
    · nlinarith
    · nlinarith
  · intro h
    have hcast : ((now - created_at : ℤ) : ℝ) = 2 * (recency_decay_days : ℝ) := by
      exact_mod_cast h
    have hnotneg : ¬ ((now - created_at : ℤ) : ℝ) < 0 := by
      rw [hcast]; exact not_lt.2 (by positivity)
    simp only [calculateRecencyScoreReal]
    have hdiv : 2 * (recency_decay_days : ℝ) / (recency_decay_days : ℝ) = 2 := by
      field_simp
    rw [if_neg hnotneg, hcast, hdiv]
    have hsplit : Real.exp (-(2 : ℝ)) = (Real.exp 1 * Real.exp 1)⁻¹ := by
      rw [← Real.exp_add, ← Real.exp_neg]
      norm_num
    rw [hsplit]
    have h1 := Real.exp_one_gt_d9
    have h2 := Real.exp_one_lt_d9
    have hp : 0 < Real.exp 1 := Real.exp_pos 1
    have hpp : 0 < Real.exp 1 * Real.exp 1 := mul_pos hp hp
    have hinv : Real.exp 1 * Real.exp 1 * (Real.exp 1 * Real.exp 1)⁻¹ = 1 :=
      mul_inv_cancel₀ hpp.ne'
    have hip : 0 < (Real.exp 1 * Real.exp 1)⁻¹ := inv_pos.2 hpp
    constructor
    · nlinarith
    · nlinarith

/-- Witness for `recency_score_spec` at concrete inputs: age 30 days with a
30-day decay period. -/
theorem recency_score_spec_witness :
    calculateRecencyScoreReal 0 30 30 = specRecencyScore 0 30 30
      ∧ 0 ≤ calculateRecencyScoreReal 0 30 30
      ∧ 9/25 ≤ calculateRecencyScoreReal 0 30 30
      ∧ calculateRecencyScoreReal 0 30 30 ≤ 19/50 :=
  ⟨(recency_score_spec 0 30 30 (by decide)).1,
   (recency_score_spec 0 30 30 (by decide)).2.2.1,
   ((recency_score_spec 0 30 30 (by decide)).2.2.2.2.1 (by decide)).1,
   ((recency_score_spec 0 30 30 (by decide)).2.2.2.2.1 (by decide)).2⟩

/-- C5 counterexample: the all-zero weight vector is non-negative, yet
`normalize_weights` leaves it untouched (the sum is not positive), so the
weights afterwards sum to 0, which is not 1 within 1e-3. -/
theorem normalize_weights_zero_counterexample :
    (0 ≤ zeroWeightQuery.vector_weight ∧ 0 ≤ zeroWeightQuery.keyword_weight
      ∧ 0 ≤ zeroWeightQuery.recency_weight
      ∧ 0 ≤ zeroWeightQuery.importance_weight)
    ∧ ¬ |zeroWeightQuery.normalize_weights.vector_weight
          + zeroWeightQuery.normalize_weights.keyword_weight
          + zeroWeightQuery.normalize_weights.recency_weight
          + zeroWeightQuery.normalize_weights.importance_weight - 1|
        ≤ 1/1000 := by
  constructor
  · refine ⟨?_, ?_, ?_, ?_⟩ <;> norm_num [zeroWeightQuery]
  · norm_num [zeroWeightQuery, HybridSearchQuery.normalize_weights]

/-- C5 amended: for every query whose weights are non-negative with a
positive sum, after `normalize_weights` the weights sum to 1 within 1e-3
(indeed exactly, in exact arithmetic) and all pairwise ratios are preserved
(stated by cross-multiplication); and the default query's weights already
sum to 1 within 1e-3. -/
theorem normalize_weights_amended (q : HybridSearchQuery)
    (h1 : 0 ≤ q.vector_weight) (h2 : 0 ≤ q.keyword_weight)
    (h3 : 0 ≤ q.recency_weight) (h4 : 0 ≤ q.importance_weight)
    (hsum : 0 < q.vector_weight + q.keyword_weight + q.recency_weight
        + q.importance_weight) :
    |q.normalize_weights.vector_weight + q.normalize_weights.keyword_weight
        + q.normalize_weights.recency_weight
        + q.normalize_weights.importance_weight - 1| ≤ 1/1000
      ∧ q.normalize_weights.vector_weight * q.keyword_weight
        = q.normalize_weights.keyword_weight * q.vector_weight
      ∧ q.normalize_weights.vector_weight * q.recency_weight
        = q.normalize_weights.recency_weight * q.vector_weight
      ∧ q.normalize_weights.vector_weight * q.importance_weight
        = q.normalize_weights.importance_weight * q.vector_weight
      ∧ q.normalize_weights.keyword_weight * q.recency_weight
        = q.normalize_weights.recency_weight * q.keyword_weight
      ∧ q.normalize_weights.keyword_weight * q.importance_weight
        = q.normalize_weights.importance_weight * q.keyword_weight
      ∧ q.normalize_weights.recency_weight * q.importance_weight
        = q.normalize_weights.importance_weight * q.recency_weight
      ∧ |HybridSearchQuery.default.vector_weight
          + HybridSearchQuery.default.keyword_weight
          + HybridSearchQuery.default.recency_weight
          + HybridSearchQuery.default.importance_weight - 1| ≤ 1/1000 := by
  have hne : q.vector_weight + q.keyword_weight + q.recency_weight
      + q.importance_weight ≠ 0 := hsum.ne'
  simp only [HybridSearchQuery.normalize_weights, if_pos hsum]
  refine ⟨?_, by ring, by ring, by ring, by ring, by ring, by ring,
    by norm_num [HybridSearchQuery.default]⟩
  have hone : q.vector_weight / (q.vector_weight + q.keyword_weight
      + q.recency_weight + q.importance_weight)
      + q.keyword_weight / (q.vector_weight + q.keyword_weight
      + q.recency_weight + q.importance_weight)
      + q.recency_weight / (q.vector_weight + q.keyword_weight
      + q.recency_weight + q.importance_weight)
      + q.importance_weight / (q.vector_weight + q.keyword_weight
      + q.recency_weight + q.importance_weight) = 1 := by
    field_simp
  rw [hone]
  norm_num

/-- Witness for `normalize_weights_amended` at the default query. -/
theorem normalize_weights_amended_witness :
    |HybridSearchQuery.default.normalize_weights.vector_weight
        + HybridSearchQuery.default.normalize_weights.keyword_weight
        + HybridSearchQuery.default.normalize_weights.recency_weight
        + HybridSearchQuery.default.normalize_weights.importance_weight - 1|
      ≤ 1/1000 :=
  (normalize_weights_amended HybridSearchQuery.default
    (by norm_num [HybridSearchQuery.default])
    (by norm_num [HybridSearchQuery.default])
    (by norm_num [HybridSearchQuery.default])
    (by norm_num [HybridSearchQuery.default])
    (by norm_num [HybridSearchQuery.default])).1

/-- Rust clamp agrees with the spec's `clamp(x, lo, hi) = max lo (min hi x)`
formulation whenever `lo ≤ hi`. -/
theorem uclamp_eq_max_min (x lo hi : ℕ) (h : lo ≤ hi) :
    uclamp x lo hi = max lo (min hi x) := by
  unfold uclamp
  split
  · omega
  · split <;> omega

/-- C7: below 1000 rows no index is created; from 1000 rows on, the index is
created with `num_partitions = clamp(floor(sqrt(row_count)), 2, 256)`,
`num_sub_vectors = clamp(vector_dim / 8, 1, 96)` (integer division),
8 quantization bits and the cosine distance. -/
theorem calculate_index_params_spec (row_count vector_dim : ℕ) :
    (row_count < 1000 →
      (calculate_index_params row_count vector_dim).should_create_index = false)
    ∧ (1000 ≤ row_count →
        (calculate_index_params row_count vector_dim).should_create_index = true
        ∧ (calculate_index_params row_count vector_dim).num_partitions
          = max 2 (min 256 (Nat.sqrt row_count))
        ∧ (calculate_index_params row_count vector_dim).num_sub_vectors
          = max 1 (min 96 (vector_dim / 8))
        ∧ (calculate_index_params row_count vector_dim).num_bits = 8
        ∧ (calculate_index_params row_count vector_dim).distance_type
          = DistanceType.cosine) := by
  constructor
  · intro h
    simp [calculate_index_params, h]
  · intro h
    have hn : ¬ row_count < 1000 := Nat.not_lt.2 h
    simp [calculate_index_params, hn, uclamp_eq_max_min _ 2 256 (by decide),
      uclamp_eq_max_min _ 1 96 (by decide)]

/-- Witness for `calculate_index_params_spec` at concrete inputs. -/
theorem calculate_index_params_spec_witness :
    (calculate_index_params 500 768).should_create_index = false
      ∧ (calculate_index_params 10000 768).num_partitions
        = max 2 (min 256 (Nat.sqrt 10000))
      ∧ (calculate_index_params 10000 768).num_sub_vectors
        = max 1 (min 96 (768 / 8)) :=
  ⟨(calculate_index_params_spec 500 768).1 (by decide),
   ((calculate_index_params_spec 10000 768).2 (by decide)).2.1,
   ((calculate_index_params_spec 10000 768).2 (by decide)).2.2.1⟩

/-- A quote-free literal followed by its closing quote parses back to
itself, leaving the remainder, provided the remainder does not start with
another quote. -/
theorem parseLitTail_no_quote (v rest : Str) (h : sq ∉ v)
    (hr : rest.head? ≠ some sq) :
    parseLitTail (v ++ sq :: rest) = some (v, rest) := by
  induction v with
  | nil =>
    rw [List.nil_append, parseLitTail.eq_def]
    cases rest with
    | nil => simp
    | cons r rs =>
      have hne : r ≠ sq := by
        intro he
        exact hr (by simp [he])
      simp [hne]
  | cons c v ih =>
    have hc : c ≠ sq := fun he => h (by simp [he])
    have hv : sq ∉ v := fun hm => h (List.mem_cons_of_mem _ hm)
    have hstep : parseLitTail (c :: (v ++ sq :: rest))
        = (parseLitTail (v ++ sq :: rest)).map (fun p => (c :: p.1, p.2)) := by
      rw [parseLitTail.eq_def]
      simp [hc]
    rw [List.cons_append, hstep, ih hv]
    rfl

/-- Parsing a condition from the shape `id = '` followed by anything
reduces definitionally to parsing the literal tail. -/
theorem parseCond_id_shape (t : Str) :
    parseCond (Char.ofNat 105 :: Char.ofNat 100 :: Char.ofNat 32
        :: Char.ofNat 61 :: Char.ofNat 32 :: sq :: t)
      = (parseLitTail t).map
          (fun p => (⟨lit (r"id"), PredOp.eq, p.1⟩, p.2)) := rfl

/-- One unfolding step of the fueled predicate body. -/
theorem parsePredFuel_succ (n : ℕ) (s : Str) :
    parsePredFuel (n + 1) s
      = (parseCond s).bind fun p =>
        let rest := skipSpaces p.2
        if rest = [] then some [p.1]
        else if (lit (r"OR")).isPrefixOf rest then
          (parsePredFuel n (rest.drop 2)).map fun cs => p.1 :: cs
        else none := rfl

/-- The interpolated id predicate as an explicit character list. -/
theorem idPredicate_shape (idv : Str) :
    idPredicate idv = Char.ofNat 105 :: Char.ofNat 100 :: Char.ofNat 32
        :: Char.ofNat 61 :: Char.ofNat 32 :: sq :: (idv ++ [sq]) := by
  simp [idPredicate, lit, sq]

/-- For a quote-free id the interpolated predicate parses to the single
comparison `id = value`. -/
theorem parse_idPredicate (idv : Str) (h : sq ∉ idv) :
    parsePredicate (idPredicate idv) = some [⟨lit (r"id"), PredOp.eq, idv⟩] := by
  have hA : parseLitTail (idv ++ [sq]) = some (idv, []) := by
    have := parseLitTail_no_quote idv [] h (by simp)
    simpa using this
  rw [parsePredicate, parsePredFuel_succ, idPredicate_shape, parseCond_id_shape, hA]
  rfl

/-- Evaluating the single id comparison against a row decides id equality. -/
theorem evalPred_idcond (row : Row) (idv : Str) :
    evalPred row.fieldValue [⟨lit (r"id"), PredOp.eq, idv⟩]
      = some (decide (row.id = idv)) := by
  show some ((decide (row.id = idv)) || false) = _
  simp

/-- Deleting by the single id comparison keeps exactly the rows with a
different id. -/
theorem removeMatching_idcond (t : MemTable) (idv : Str) :
    removeMatching t [⟨lit (r"id"), PredOp.eq, idv⟩]
      = some (t.filter fun row => !(decide (row.id = idv))) := by
  induction t with
  | nil => rfl
  | cons row rest ih =>
    rw [removeMatching, evalPred_idcond, ih]
    cases hb : decide (row.id = idv) <;> simp [List.filter_cons, hb]

/-- Selecting by the single id comparison keeps exactly the rows with that
id. -/
theorem selectMatching_idcond (t : MemTable) (idv : Str) :
    selectMatching t [⟨lit (r"id"), PredOp.eq, idv⟩]
      = some (t.filter fun row => decide (row.id = idv)) := by
  induction t with
  | nil => rfl
  | cons row rest ih =>
    rw [selectMatching, evalPred_idcond, ih]
    cases hb : decide (row.id = idv) <;> simp [List.filter_cons, hb]

/-- The `Display` and `From<String>` conversions of `MemoryType` are
mutually inverse. -/
theorem memoryType_round_trip (mt : MemoryType) :
    MemoryType.fromString mt.toStr = mt := by
  cases mt <;> decide

/-- C1 amended: for a memory whose id contains no single quote, the
store/get round trip preserves id, memory type, title, content, both
timestamps, tags, related files, git commit, importance and confidence —
but `created_by`, `custom_fields` and the decay record come back as the
defaults (`created_by = None`, empty `custom_fields`,
`decay = MemoryDecay::new(0.5)` stamped at read time), because the table
schema has no columns for them and `batch_to_memories` fills the metadata
with `..Default::default()`. -/
theorem store_get_round_trip (t : MemTable) (m : Memory) (embedding : List ℚ)
    (now : ℤ) (h : sq ∉ m.id) :
    get_memory (store_memory_with_embedding t m embedding) now m.id
      = some (some
          { id := m.id
            memory_type := m.memory_type
            title := m.title
            content := m.content
            metadata :=
              { git_commit := m.metadata.git_commit
                related_files := m.metadata.related_files
                tags := m.metadata.tags
                importance := m.metadata.importance
                confidence := m.metadata.confidence
                created_by := none
                custom_fields := []
                decay := MemoryDecay.new (1/2) now }
            created_at := m.created_at
            updated_at := m.updated_at
            relevance_score := none }) := by
  unfold get_memory store_memory_with_embedding tableDelete
  rw [parse_idPredicate m.id h]
  simp only [Option.some_bind]
  rw [removeMatching_idcond, selectMatching_idcond]
  simp only [Option.getD_some, Option.map_some]
  simp [List.filter_append, List.filter_filter, List.filter_cons,
    rowToMemory, memoryToRow, MemoryMetadata.default, memoryType_round_trip]

/-- C1 counterexample: storing a memory whose `created_by` is set and
reading it back does not return the same memory — `get` returns it with
`created_by = None` — refuting the claim that the round trip preserves
every field but `relevance_score`. -/
theorem store_get_counterexample :
    get_memory (store_memory_with_embedding [] roundTripCounterMemory [1]) 0
        (lit (r"m1")) ≠ some (some roundTripCounterMemory) := by
  have hne : (get_memory (store_memory_with_embedding [] roundTripCounterMemory [1]) 0
        (lit (r"m1"))).map (Option.map fun mem => mem.metadata.created_by)
      ≠ (some (some roundTripCounterMemory)).map
          (Option.map fun mem => mem.metadata.created_by) := by decide
  exact fun hEq => hne (congrArg _ hEq)

/-- Witness for `store_get_round_trip` at a concrete memory. -/
theorem store_get_round_trip_witness :
    get_memory (store_memory_with_embedding [] witnessMemory [1]) 7 witnessMemory.id
      = some (some
          { id := witnessMemory.id
            memory_type := witnessMemory.memory_type
            title := witnessMemory.title
            content := witnessMemory.content
            metadata :=
              { git_commit := witnessMemory.metadata.git_commit
                related_files := witnessMemory.metadata.related_files
                tags := witnessMemory.metadata.tags
                importance := witnessMemory.metadata.importance
                confidence := witnessMemory.metadata.confidence
                created_by := none
                custom_fields := []
                decay := MemoryDecay.new (1/2) 7 }
            created_at := witnessMemory.created_at
            updated_at := witnessMemory.updated_at
            relevance_score := none }) :=
  store_get_round_trip [] witnessMemory [1] 7 (by decide)

/-- C2: the code interpolates ids into predicate strings without any quote
doubling, so the id `x' OR id != 'x` rewrites the predicate into a
disjunction of two comparisons, and `get_memory` with that id returns the
row whose id is `y` — a row whose id does not equal the searched string.
With the spec-mandated doubling (`escapeSq`) the same id parses back as a
single comparison whose literal is the original id, matching no other row.
This demonstrates the code bug: the spec's safety requirement is absent
from the source. -/
theorem quote_injection_code_bug :
    parsePredicate (idPredicate injectionId)
        = some [⟨lit (r"id"), PredOp.eq, lit (r"x")⟩,
                ⟨lit (r"id"), PredOp.ne, lit (r"x")⟩]
      ∧ otherRow.id ≠ injectionId
      ∧ (get_memory [otherRow] 0 injectionId).map
          (Option.map fun mem => mem.id) = some (some (lit (r"y")))
      ∧ parsePredicate (lit (r"id = ") ++ [sq] ++ escapeSq injectionId ++ [sq])
        = some [⟨lit (r"id"), PredOp.eq, injectionId⟩]
      ∧ (parsePredicate (lit (r"id = ") ++ [sq] ++ escapeSq injectionId ++ [sq])).bind
          (evalPred otherRow.fieldValue) = some false :=
  ⟨by decide, by decide, by decide, by decide, by decide⟩

/-- Membership after a hash-map insert: the element was present or is the inserted pair. -/
theorem mem_insertCandidate (acc : List (Str × Candidate)) (k : Str)
    (v : Candidate) (p : Str × Candidate) (h : p ∈ insertCandidate acc k v) :
    p ∈ acc ∨ p = (k, v) := by
  induction acc with
  | nil =>
    simp [insertCandidate] at h
    exact Or.inr h
  | cons e rest ih =>
    rw [insertCandidate] at h
    by_cases hk : e.1 = k
    · rw [if_pos hk] at h
      rcases List.mem_cons.1 h with h1 | h1
      · exact Or.inr (by rw [h1, hk])
      · exact Or.inl (List.mem_cons_of_mem _ h1)
    · rw [if_neg hk] at h
      rcases List.mem_cons.1 h with h1 | h1
      · exact Or.inl (by rw [h1]; exact List.mem_cons_self _ _)
      · rcases ih h1 with h2 | h2
        · exact Or.inl (List.mem_cons_of_mem _ h2)
        · exact Or.inr h2

/-- Membership after folding inserts: the element was in the accumulator or stems from the folded list. -/
theorem mem_foldl_insertCandidate {α : Type} (g : α → Str) (f : α → Candidate)
    (l : List α) :
    ∀ (acc : List (Str × Candidate)) (p : Str × Candidate),
      p ∈ l.foldl (fun acc a => insertCandidate acc (g a) (f a)) acc →
      p ∈ acc ∨ ∃ a ∈ l, p = (g a, f a) := by
  induction l with
  | nil =>
    intro acc p h
    exact Or.inl h
  | cons a l ih =>
    intro acc p h
    rw [List.foldl_cons] at h
    rcases ih _ p h with h1 | h1
    · rcases mem_insertCandidate _ _ _ _ h1 with h2 | h2
      · exact Or.inl h2
      · exact Or.inr ⟨a, List.mem_cons_self _ _, h2⟩
    · rcases h1 with ⟨a0, ha0, hp⟩
      exact Or.inr ⟨a0, List.mem_cons_of_mem _ ha0, hp⟩

/-- Membership after the keyword update: the memory was already present or is the inserted one. -/
theorem mem_adjustKw (acc : List (Str × Candidate)) (k : Str) (mem : Memory)
    (kw : ℚ) (p : Str × Candidate) (h : p ∈ adjustKw acc k mem kw) :
    (∃ e ∈ acc, p.2.mem = e.2.mem) ∨ p.2.mem = mem := by
  induction acc with
  | nil =>
    simp [adjustKw] at h
    exact Or.inr (by rw [h])
  | cons e rest ih =>
    rw [adjustKw] at h
    by_cases hk : e.1 = k
    · rw [if_pos hk] at h
      rcases List.mem_cons.1 h with h1 | h1
      · exact Or.inl ⟨e, List.mem_cons_self _ _, by rw [h1]⟩
      · exact Or.inl ⟨p, List.mem_cons_of_mem _ h1, rfl⟩
    · rw [if_neg hk] at h
      rcases List.mem_cons.1 h with h1 | h1
      · exact Or.inl ⟨e, List.mem_cons_self _ _, by rw [h1]⟩
      · rcases ih h1 with ⟨e0, he0, hm⟩ | h2
        · exact Or.inl ⟨e0, List.mem_cons_of_mem _ he0, hm⟩
        · exact Or.inr h2

/-- Membership after folding keyword updates. -/
theorem mem_foldl_adjustKw (l : List (Memory × ℚ)) :
    ∀ (acc : List (Str × Candidate)) (p : Str × Candidate),
      p ∈ l.foldl (fun acc x => adjustKw acc x.1.id x.1 x.2) acc →
      (∃ e ∈ acc, p.2.mem = e.2.mem) ∨ ∃ x ∈ l, p.2.mem = x.1 := by
  induction l with
  | nil =>
    intro acc p h
    exact Or.inl ⟨p, h, rfl⟩
  | cons x l ih =>
    intro acc p h
    rw [List.foldl_cons] at h
    rcases ih _ p h with ⟨e, he, hm⟩ | h1
    · rcases mem_adjustKw _ _ _ _ _ he with ⟨e0, he0, hm0⟩ | h2
      · exact Or.inl ⟨e0, he0, hm.trans hm0⟩
      · exact Or.inr ⟨x, List.mem_cons_self _ _, hm.trans h2⟩
    · rcases h1 with ⟨x0, hx0, hm⟩
      exact Or.inr ⟨x0, List.mem_cons_of_mem _ hx0, hm⟩

/-- The source's `limit * 2` vector call equals the spec's `2 * final_limit` call. -/
theorem hybrid_c1_eq_spec (env : SearchEnv) (q : HybridSearchQuery) (vq : Str)
    (hv : q.vector_query = some vq) :
    hybrid_c1 env q
      = (vector_search env (specHybridVectorQuery env q vq)).foldl
          (fun acc res =>
            insertCandidate acc res.memory.id
              ⟨res.memory, res.relevance_score, 0, 0, 0⟩) [] := by
  rw [hybrid_c1, hv]
  rw [Nat.mul_comm]
  rfl

/-- Every vector-pass candidate stems from the spec vector query. -/
theorem mem_hybrid_c1 (env : SearchEnv) (q : HybridSearchQuery) (vq : Str)
    (hv : q.vector_query = some vq) (p : Str × Candidate)
    (hp : p ∈ hybrid_c1 env q) :
    ∃ v ∈ vector_search env (specHybridVectorQuery env q vq),
      p.2.mem = v.memory := by
  rw [hybrid_c1_eq_spec env q vq hv] at hp
  rcases mem_foldl_insertCandidate (fun (r : MemorySearchResult) => r.memory.id)
      (fun (r : MemorySearchResult) => ⟨r.memory, r.relevance_score, 0, 0, 0⟩) _ [] p hp with h1 | h1
  · exact absurd h1 (List.not_mem_nil p)
  · rcases h1 with ⟨v, hvmem, hpe⟩
    exact ⟨v, hvmem, by rw [hpe]⟩

/-- Every candidate after the keyword pass stems from the vector pass or the keyword results. -/
theorem mem_hybrid_c2 (env : SearchEnv) (q : HybridSearchQuery)
    (p : Str × Candidate) (hp : p ∈ hybrid_c2 env q) :
    (∃ e ∈ hybrid_c1 env q, p.2.mem = e.2.mem)
      ∨ ∃ kws, q.keywords = some kws
          ∧ ∃ x ∈ keyword_search env kws q.filters, p.2.mem = x.1 := by
  rw [hybrid_c2] at hp
  rcases hq : q.keywords with _ | kws
  · rw [hq] at hp
    exact Or.inl ⟨p, hp, rfl⟩
  · rw [hq] at hp
    rcases mem_foldl_adjustKw _ _ p hp with ⟨e, he, hm⟩ | h1
    · exact Or.inl ⟨e, he, hm⟩
    · rcases h1 with ⟨x, hx, hm⟩
      exact Or.inr ⟨kws, rfl, x, hx, hm⟩

/-- Every fallback candidate is a filtered row of the table. -/
theorem mem_hybrid_fallback (env : SearchEnv) (q : HybridSearchQuery)
    (p : Str × Candidate) (hp : p ∈ hybrid_fallback env q) :
    matches_filters p.2.mem q.filters = true
      ∧ ∃ row ∈ env.allRows, p.2.mem = rowToMemory env.now row := by
  rw [hybrid_fallback] at hp
  rcases mem_foldl_insertCandidate (fun (mem : Memory) => mem.id)
      (fun (mem : Memory) => ⟨mem, 0, 0, 0, 0⟩) _ [] p hp with h1 | h1
  · exact absurd h1 (List.not_mem_nil p)
  · rcases h1 with ⟨mem0, hmem0, hpe⟩
    rcases List.mem_filter.1 hmem0 with ⟨hmm, hmf⟩
    rcases List.mem_map.1 hmm with ⟨row, hrow, hrm⟩
    refine ⟨?_, row, hrow, ?_⟩
    · rw [hpe]
      simpa [hrm] using hmf
    · rw [hpe, hrm]

/-- Provenance of hybrid candidates: vector pass, keyword pass, or fallback scan. -/
theorem hybrid_candidates_provenance (env : SearchEnv) (q : HybridSearchQuery)
    (vq : Str) (hv : q.vector_query = some vq) :
    ∀ p ∈ hybrid_candidates env q,
      (∃ v ∈ vector_search env (specHybridVectorQuery env q vq), p.2.mem = v.memory)
      ∨ (∃ kws, q.keywords = some kws
          ∧ ∃ x ∈ keyword_search env kws q.filters, p.2.mem = x.1)
      ∨ (matches_filters p.2.mem q.filters = true
          ∧ ∃ row ∈ env.allRows, p.2.mem = rowToMemory env.now row) := by
  intro p hp
  rw [hybrid_candidates] at hp
  split at hp
  · exact Or.inr (Or.inr (mem_hybrid_fallback env q p hp))
  · rcases mem_hybrid_c2 env q p hp with ⟨e, he, hm⟩ | h1
    · rcases mem_hybrid_c1 env q vq hv e he with ⟨v, hvmem, hm2⟩
      exact Or.inl ⟨v, hvmem, hm.trans hm2⟩
    · exact Or.inr (Or.inl h1)


/-- C3: whenever `hybrid_search` succeeds, every returned result's memory
originates from the `vector_search` call issued with
`limit = 2 · final_limit` (or from the keyword pass, or from the fallback
scan when both passes were empty); its relevance score is the weighted
linear combination of the candidate's four signal scores, whose recency and
importance components are the memory's recency and current-importance
scores; no score below `min_relevance` is returned; the list is sorted by
combined score descending; and it holds at most `final_limit` results. -/
theorem hybrid_search_spec (env : SearchEnv) (q : HybridSearchQuery)
    (res : List MemorySearchResult) (hrun : hybrid_search env q = some res) :
    (∀ vq, q.vector_query = some vq → ∀ r ∈ res,
      (∃ v ∈ vector_search env (specHybridVectorQuery env q vq),
          r.memory = v.memory)
      ∨ (∃ kws, q.keywords = some kws
          ∧ ∃ x ∈ keyword_search env kws q.filters, r.memory = x.1)
      ∨ (matches_filters r.memory q.filters = true
          ∧ ∃ row ∈ env.allRows, r.memory = rowToMemory env.now row))
    ∧ (∀ r ∈ res, ∃ c ∈ hybrid_scored env q,
        r.memory = c.2.mem
        ∧ r.relevance_score = q.vector_weight * c.2.vec_score
            + q.keyword_weight * c.2.kw_score
            + q.recency_weight * c.2.rec_score
            + q.importance_weight * c.2.imp_score
        ∧ c.2.rec_score = calculate_recency_score_q env c.2.mem
        ∧ c.2.imp_score = currentImportanceOf env c.2.mem)
    ∧ (∀ r ∈ res, q.filters.min_relevance.getD 0 ≤ r.relevance_score)
    ∧ List.Pairwise (fun a b => b.relevance_score ≤ a.relevance_score) res
    ∧ res.length ≤ hybridFinalLimit env q := by
  rw [hybrid_search] at hrun
  by_cases hval : q.validate_ok = true
  case neg =>
    rw [if_neg hval] at hrun
    exact absurd hrun (by simp)
  rw [if_pos hval] at hrun
  have hres := (Option.some.inj hrun).symm
  set f : Str × Candidate → MemorySearchResult := fun p =>
    { memory := p.2.mem, relevance_score := combineScores q p.2 } with hf
  set g : MemorySearchResult → Bool := fun r =>
    decide (q.filters.min_relevance.getD 0 ≤ r.relevance_score) with hg
  set le : MemorySearchResult → MemorySearchResult → Bool := fun a b =>
    decide (b.relevance_score ≤ a.relevance_score) with hle
  set L := ((hybrid_scored env q).map f).filter g with hL
  set S := L.mergeSort le with hS
  have hmemS : ∀ r ∈ res, r ∈ L := by
    intro r hr
    rw [hres] at hr
    exact List.mem_mergeSort.1 ((List.take_sublist _ _).subset hr)
  have hB : ∀ r ∈ res, ∃ c ∈ hybrid_scored env q,
      r.memory = c.2.mem
      ∧ r.relevance_score = q.vector_weight * c.2.vec_score
          + q.keyword_weight * c.2.kw_score
          + q.recency_weight * c.2.rec_score
          + q.importance_weight * c.2.imp_score
      ∧ c.2.rec_score = calculate_recency_score_q env c.2.mem
      ∧ c.2.imp_score = currentImportanceOf env c.2.mem := by
    intro r hr
    rcases List.mem_filter.1 (hmemS r hr) with ⟨hmap, hgr⟩
    rcases List.mem_map.1 hmap with ⟨c, hc, hcr⟩
    refine ⟨c, hc, by rw [← hcr], by rw [← hcr]; rfl, ?_, ?_⟩
    · rcases List.mem_map.1 (by rw [hybrid_scored] at hc; exact hc) with ⟨c0, _, hc0⟩
      rw [← hc0]
    · rcases List.mem_map.1 (by rw [hybrid_scored] at hc; exact hc) with ⟨c0, _, hc0⟩
      rw [← hc0]
  refine ⟨?_, hB, ?_, ?_, ?_⟩
  · intro vq hv r hr
    rcases hB r hr with ⟨c, hc, hmem, _⟩
    have hc2 : ∃ c0 ∈ hybrid_candidates env q, c.2.mem = c0.2.mem := by
      rw [hybrid_scored] at hc
      rcases List.mem_map.1 hc with ⟨c0, hc0, hcc⟩
      exact ⟨c0, hc0, by rw [← hcc]⟩
    rcases hc2 with ⟨c0, hc0, hcm⟩
    rcases hybrid_candidates_provenance env q vq hv c0 hc0 with h1 | h1 | h1
    · rcases h1 with ⟨v, hvm, hm⟩
      exact Or.inl ⟨v, hvm, by rw [hmem, hcm, hm]⟩
    · rcases h1 with ⟨kws, hkw, x, hx, hm⟩
      exact Or.inr (Or.inl ⟨kws, hkw, x, hx, by rw [hmem, hcm, hm]⟩)
    · rcases h1 with ⟨hmf, row, hrow, hm⟩
      refine Or.inr (Or.inr ⟨?_, row, hrow, by rw [hmem, hcm, hm]⟩)
      rw [hmem, hcm]
      exact hmf
  · intro r hr
    rcases List.mem_filter.1 (hmemS r hr) with ⟨_, hgr⟩
    exact of_decide_eq_true hgr
  · have htrans : ∀ a b c : MemorySearchResult,
        le a b = true → le b c = true → le a c = true := by
      intro a b c h1 h2
      rw [hle] at h1 h2 ⊢
      exact decide_eq_true (le_trans (of_decide_eq_true h2) (of_decide_eq_true h1))
    have htotal : ∀ a b : MemorySearchResult, (le a b || le b a) = true := by
      intro a b
      rw [hle]
      rcases le_total a.relevance_score b.relevance_score with h | h
      · simp [decide_eq_true h]
      · simp [decide_eq_true h]
    have hsorted := List.sorted_mergeSort htrans htotal L
    rw [← hS] at hsorted
    have hres_sorted : List.Pairwise (fun a b => le a b = true) res := by
      rw [hres]
      exact List.Pairwise.sublist (List.take_sublist _ _) hsorted
    exact hres_sorted.imp (fun h => of_decide_eq_true h)
  · rw [hres]
    simp [List.length_take]

/-- Evaluation of the hybrid pipeline on the trivial environment. -/
theorem hybrid_search_trivial_run :
    hybrid_search trivialSearchEnv vectorOnlyQuery = some [] := by
  norm_num [hybrid_search, HybridSearchQuery.validate_ok, vectorOnlyQuery,
    HybridSearchQuery.default, hybrid_scored, hybrid_candidates, hybrid_c2,
    hybrid_c1, hybrid_fallback, vector_search, keyword_search, sort_results,
    trivialSearchEnv, MemoryQuery.default, hybridFinalLimit]

/-- Witness for `hybrid_search_spec` at the trivial environment. -/
theorem hybrid_search_spec_witness :
    (∀ r ∈ ([] : List MemorySearchResult),
        vectorOnlyQuery.filters.min_relevance.getD 0 ≤ r.relevance_score)
      ∧ ([] : List MemorySearchResult).length
          ≤ hybridFinalLimit trivialSearchEnv vectorOnlyQuery :=
  ⟨(hybrid_search_spec trivialSearchEnv vectorOnlyQuery []
      hybrid_search_trivial_run).2.2.1,
   (hybrid_search_spec trivialSearchEnv vectorOnlyQuery []
      hybrid_search_trivial_run).2.2.2.2⟩

/-- Trimming is the identity when neither end starts with whitespace. -/
theorem trimStr_eq_self (s : Str) (h1 : s.dropWhile isWs = s)
    (h2 : s.reverse.dropWhile isWs = s.reverse) : trimStr s = s := by
  rw [trimStr, h1, h2, List.reverse_reverse]

/-- A list is a boolean prefix of itself followed by anything. -/
theorem isPrefixOf_append_self (l t : Str) : l.isPrefixOf (l ++ t) = true := by
  induction l with
  | nil => simp [List.isPrefixOf]
  | cons c cs ih => simp [List.isPrefixOf, ih]

/-- A list is a boolean suffix of anything followed by itself. -/
theorem isSuffixOf_append_self (a suf : Str) : suf.isSuffixOf (a ++ suf) = true := by
  rw [List.isSuffixOf, List.reverse_append]
  exact isPrefixOf_append_self _ _

/-- Stripping a suffix just appended returns the original string. -/
theorem stripSuffix_append (a suf : Str) : stripSuffix (a ++ suf) suf = a := by
  rw [stripSuffix, if_pos (isSuffixOf_append_self a suf)]
  rw [List.length_append, Nat.add_sub_cancel, List.take_left]

/-- The first matching character after a block of non-matching ones. -/
theorem findCharIdx_append_first (p : Char → Bool) (l1 : Str) (c : Char)
    (l2 : Str) (h1 : ∀ x ∈ l1, p x = false) (hc : p c = true) :
    findCharIdx p (l1 ++ c :: l2) = some l1.length := by
  induction l1 with
  | nil =>
    rw [List.nil_append, findCharIdx, if_pos hc]
    rfl
  | cons x xs ih =>
    rw [List.cons_append, findCharIdx,
      if_neg (by rw [h1 x (List.mem_cons_self _ _)]; exact Bool.false_ne_true),
      ih fun y hy => h1 y (List.mem_cons_of_mem _ hy)]
    rfl

/-- The characters of the `https://` scheme. -/
theorem lit_https_chars : lit (r"https://")
    = Char.ofNat 104 :: Char.ofNat 116 :: Char.ofNat 116 :: Char.ofNat 112
      :: Char.ofNat 115 :: Char.ofNat 58 :: Char.ofNat 47 :: Char.ofNat 47 :: [] := rfl

/-- The characters of the `git@` SSH user part. -/
theorem lit_gitat_chars : lit (r"git@")
    = Char.ofNat 103 :: Char.ofNat 105 :: Char.ofNat 116 :: Char.ofNat 64 :: [] := rfl

/-- An `https://host/path.git` URL normalizes to `host/path`. -/
theorem normalize_https (host path : Str) :
    normalize_git_url
        (lit (r"https://") ++ host ++ Char.ofNat 47 :: path ++ lit (r".git"))
      = host ++ Char.ofNat 47 :: path := by
  have hassoc : lit (r"https://") ++ host ++ Char.ofNat 47 :: path ++ lit (r".git")
      = (lit (r"https://") ++ host ++ Char.ofNat 47 :: path) ++ lit (r".git") := by
    simp [List.append_assoc]
  have htrim : trimStr ((lit (r"https://") ++ host ++ Char.ofNat 47 :: path) ++ lit (r".git"))
      = (lit (r"https://") ++ host ++ Char.ofNat 47 :: path) ++ lit (r".git") := by
    apply trimStr_eq_self
    · rw [show (lit (r"https://") ++ host ++ Char.ofNat 47 :: path) ++ lit (r".git")
          = Char.ofNat 104 :: (lit (r"ttps://") ++ host ++ Char.ofNat 47 :: path ++ lit (r".git"))
          from by simp [lit, List.append_assoc]]
      rw [List.dropWhile_cons, if_neg (by decide)]
    · rw [List.reverse_append]
      rw [show (lit (r".git")).reverse = Char.ofNat 116 :: lit (r"ig.") from rfl]
      rw [List.cons_append, List.dropWhile_cons, if_neg (by decide)]
  have hfind : findSubIdx (lit (r"://"))
      (lit (r"https://") ++ host ++ Char.ofNat 47 :: path) = some 5 := by
    simp [lit_https_chars, findSubIdx, lit]
  have hcsub : containsSub (lit (r"://"))
      (lit (r"https://") ++ host ++ Char.ofNat 47 :: path) = true := by
    rw [containsSub, hfind]
    rfl
  have hsch : schemeBranch (lit (r"https://") ++ host ++ Char.ofNat 47 :: path)
      = host ++ Char.ofNat 47 :: path := by
    rw [schemeBranch, if_pos (by simp [lit_https_chars, lit, List.isPrefixOf]), hfind]
    simp [lit_https_chars]
  rw [normalize_git_url]
  simp only [hassoc, htrim, stripSuffix_append, hcsub, Bool.not_true, Bool.and_false]
  rw [if_neg Bool.false_ne_true, hsch]

/-- A `git@host:path.git` URL whose host has no colon and which contains no `://` normalizes to `host/path`. -/
theorem normalize_ssh (host path : Str)
    (hcol : Char.ofNat 58 ∉ host)
    (hns : containsSub (lit (r"://"))
        (lit (r"git@") ++ host ++ Char.ofNat 58 :: path) = false) :
    normalize_git_url
        (lit (r"git@") ++ host ++ Char.ofNat 58 :: path ++ lit (r".git"))
      = host ++ Char.ofNat 47 :: path := by
  set A := lit (r"git@") ++ host ++ Char.ofNat 58 :: path with hA
  have hassoc : lit (r"git@") ++ host ++ Char.ofNat 58 :: path ++ lit (r".git")
      = A ++ lit (r".git") := by
    simp [hA, List.append_assoc]
  have htrim : trimStr (A ++ lit (r".git")) = A ++ lit (r".git") := by
    apply trimStr_eq_self
    · rw [show A ++ lit (r".git")
          = Char.ofNat 103 :: (lit (r"it@") ++ host ++ Char.ofNat 58 :: path ++ lit (r".git"))
          from by simp [hA, lit, List.append_assoc]]
      rw [List.dropWhile_cons, if_neg (by decide)]
    · rw [List.reverse_append,
        show (lit (r".git")).reverse = Char.ofNat 116 :: lit (r"ig.") from rfl,
        List.cons_append, List.dropWhile_cons, if_neg (by decide)]
  have hat : A.contains (Char.ofNat 64) = true := by
    simp [hA, lit_gitat_chars]
  have hcolon : A.contains (Char.ofNat 58) = true := by
    simp [hA, lit_gitat_chars]
  have hfat : findCharIdx (fun c => decide (c = Char.ofNat 64)) A = some 3 := by
    simp [hA, lit_gitat_chars, findCharIdx]
  have hdrop3 : A.drop 3 = Char.ofNat 64 :: (host ++ Char.ofNat 58 :: path) := by
    simp [hA, lit_gitat_chars]
  have hfcolon : findCharIdx (fun c => decide (c = Char.ofNat 58)) (A.drop 3)
      = some (host.length + 1) := by
    rw [hdrop3, findCharIdx, if_neg (by decide),
      findCharIdx_append_first _ host _ path
        (fun x hx => decide_eq_false (fun (he : x = Char.ofNat 58) => hcol (he ▸ hx)))
        (by decide)]
    rfl
  have hs1 : (A.drop 4).take host.length = host := by
    have h4 : A.drop 4 = host ++ Char.ofNat 58 :: path := by
      simp [hA, lit_gitat_chars]
    rw [h4, List.take_left]
  have hs2 : A.drop (host.length + 5) = path := by
    have hlen : host.length + 5
        = (lit (r"git@") ++ host ++ [Char.ofNat 58]).length := by
      simp [lit_gitat_chars]
    have hsplit : A = (lit (r"git@") ++ host ++ [Char.ofNat 58]) ++ path := by
      simp [hA, List.append_assoc]
    rw [hsplit, hlen, List.drop_left]
  rw [normalize_git_url]
  simp only [hassoc, htrim, stripSuffix_append]
  rw [hat, hcolon, hns]
  simp only [Bool.not_false, Bool.and_true]
  rw [if_pos trivial]
  simp [hfat, hfcolon, hs1]
  rw [show 3 + (host.length + 1) + 1 = host.length + 5 from by omega]
  exact hs2

/-- Hex rendering yields two characters per digest byte. -/
theorem formatHexDigest_length (d : List ℕ) :
    (formatHexDigest d).length = 2 * d.length := by
  induction d with
  | nil => rfl
  | cons b bs ih =>
    simp [formatHexDigest] at ih ⊢
    omega

/-- Every digit below 16 renders into the lowercase hex alphabet. -/
theorem hexDigit_mem_alphabet (n : ℕ) (h : n < 16) :
    hexDigit n ∈ lit (r"0123456789abcdef") := by
  interval_cases n <;> decide

/-- C6 amended: the normalization strips one trailing `.git`, converts the
SSH form `user@host:path` to `host/path`, and strips the scheme prefix of
`http://` and `https://` URLs only — other schemes are returned unchanged
(see the counterexample); the project identifier is the first 16 characters
of the lowercase-hex SHA-256 digest of the normalized string: its length is
16 and all its characters are lowercase hex digits. -/
theorem project_identifier_amended (sha : Str → List ℕ) (host path url : Str) :
    normalize_git_url
        (lit (r"https://") ++ host ++ Char.ofNat 47 :: path ++ lit (r".git"))
      = host ++ Char.ofNat 47 :: path
    ∧ (Char.ofNat 58 ∉ host →
        containsSub (lit (r"://"))
            (lit (r"git@") ++ host ++ Char.ofNat 58 :: path) = false →
        normalize_git_url
            (lit (r"git@") ++ host ++ Char.ofNat 58 :: path ++ lit (r".git"))
          = host ++ Char.ofNat 47 :: path)
    ∧ normalize_git_url (lit (r"ssh://git@example.com/a/b"))
        = lit (r"ssh://git@example.com/a/b")
    ∧ ((sha (normalize_git_url url)).length = 32 →
        (get_project_identifier sha url).length = 16)
    ∧ ((∀ b ∈ sha (normalize_git_url url), b < 256) →
        ∀ c ∈ get_project_identifier sha url, c ∈ lit (r"0123456789abcdef")) := by
  refine ⟨normalize_https host path, normalize_ssh host path, by decide, ?_, ?_⟩
  · intro h32
    rw [get_project_identifier, List.length_take, formatHexDigest_length, h32]
    decide
  · intro hb c hc
    rw [get_project_identifier] at hc
    have hc2 : c ∈ formatHexDigest (sha (normalize_git_url url)) :=
      (List.take_sublist _ _).subset hc
    rcases List.mem_flatMap.1 hc2 with ⟨b, hbm, hcb⟩
    rcases List.mem_cons.1 hcb with h1 | h1
    · rw [h1]
      exact hexDigit_mem_alphabet _ (Nat.mod_lt _ (by omega))
    · rcases List.mem_cons.1 h1 with h2 | h2
      · rw [h2]
        exact hexDigit_mem_alphabet _ (Nat.mod_lt _ (by omega))
      · exact absurd h2 (List.not_mem_nil c)

/-- C6 counterexample: the code does not strip an arbitrary `scheme://`
prefix — a `git://` URL is returned unchanged, while the claim's
any-scheme stripping would produce `github.com/user/repo`. -/
theorem normalize_git_url_scheme_counterexample :
    normalize_git_url (lit (r"git://github.com/user/repo"))
        = lit (r"git://github.com/user/repo")
      ∧ specStripAnyScheme (lit (r"git://github.com/user/repo"))
        = lit (r"github.com/user/repo")
      ∧ normalize_git_url (lit (r"git://github.com/user/repo"))
        ≠ specStripAnyScheme (lit (r"git://github.com/user/repo")) :=
  ⟨by decide, by decide, by decide⟩

/-- Witness for `project_identifier_amended` at concrete inputs. -/
theorem project_identifier_amended_witness :
    normalize_git_url (lit (r"git@") ++ lit (r"github.com")
        ++ Char.ofNat 58 :: lit (r"muvon/octobrain") ++ lit (r".git"))
      = lit (r"github.com") ++ Char.ofNat 47 :: lit (r"muvon/octobrain")
    ∧ (get_project_identifier (fun _ => List.replicate 32 0) (lit (r"x"))).length = 16 :=
  ⟨(project_identifier_amended (fun _ => List.replicate 32 0) (lit (r"github.com"))
      (lit (r"muvon/octobrain")) (lit (r"x"))).2.1 (by decide) (by decide),
   (project_identifier_amended (fun _ => List.replicate 32 0) (lit (r"github.com"))
      (lit (r"muvon/octobrain")) (lit (r"x"))).2.2.2.1 (by decide)⟩

end Octobrain
